import Mathlib

/-
Verification of the finnpal market scanner (src/entry.py) against its
natural-language specification.

The numeric model uses ℚ for prices and volumes: the Python code performs
exact-looking arithmetic on JSON numbers and every property of interest is
an algebraic identity or inequality, so rationals are the faithful shallow
embedding. Fallible paths return Option; the network is modelled by the
response data the code inspects.
-/

set_option autoImplicit false

namespace Finnpal

/-- A daily aggregate bar as consumed by the scanner: high `h`, low `l`,
close `c`, volume `v` (field names follow the JSON keys read by the code). -/
structure Bar where
  h : ℚ
  l : ℚ
  c : ℚ
  v : ℚ
deriving DecidableEq, Inhabited

/-- The accumulator loop of `calculate_cmf`: walks the bars carrying
`money_flow_vol_sum` and `volume_sum`, exactly as the Python `for` loop does
(the money-flow multiplier is 0 when `high == low`). -/
def cmfLoop : List Bar → ℚ → ℚ → ℚ × ℚ
  | [], mfvSum, volSum => (mfvSum, volSum)
  | bar :: rest, mfvSum, volSum =>
      cmfLoop rest
        (mfvSum +
          (if bar.h ≠ bar.l then ((bar.c - bar.l) - (bar.h - bar.c)) / (bar.h - bar.l) else 0)
            * bar.v)
        (volSum + bar.v)

/-- `calculate_cmf` from src/entry.py: returns 0 on an empty list, otherwise
runs the accumulator loop and divides the money-flow-volume sum by the volume
sum, guarding a non-positive total volume with 0. -/
def calculate_cmf (bars : List Bar) : ℚ :=
  if bars = [] then 0
  else
    let s := cmfLoop bars 0 0
    if s.2 > 0 then s.1 / s.2 else 0

/-- The money-flow multiplier of one bar as the specification words it:
`((close-low)-(high-close))/(high-low)`, treated as 0 when `high == low`. -/
def specMultiplier (b : Bar) : ℚ :=
  if b.h = b.l then 0 else ((b.c - b.l) - (b.h - b.c)) / (b.h - b.l)

theorem cmfLoop_eq (bars : List Bar) :
    ∀ a b : ℚ, cmfLoop bars a b =
      (a + (bars.map (fun bar => specMultiplier bar * bar.v)).sum,
       b + (bars.map Bar.v).sum) := by
  induction bars with
  | nil => intro a b; simp [cmfLoop]
  | cons bar rest ih =>
      intro a b
      simp only [cmfLoop, List.map_cons, List.sum_cons, ih, Prod.mk.injEq]
      constructor
      · by_cases hhl : bar.h = bar.l
        · simp [specMultiplier, hhl]
        · simp [specMultiplier, hhl]
          ring
      · ring

/-- Closed form of `calculate_cmf`: the loop's quotient written as sums over
the bar list. -/
theorem calculate_cmf_sum (bars : List Bar) :
    calculate_cmf bars =
      if 0 < (bars.map Bar.v).sum then
        (bars.map (fun b => specMultiplier b * b.v)).sum / (bars.map Bar.v).sum
      else 0 := by
  cases bars with
  | nil => simp [calculate_cmf]
  | cons bar rest =>
      rw [calculate_cmf]
      simp only [reduceCtorEq, if_false]
      rw [cmfLoop_eq]
      simp only [zero_add, gt_iff_lt]

/-- C3: `calculate_cmf bars` equals the sum over the bars of the money-flow
multiplier (`((close-low)-(high-close))/(high-low)`, taken as 0 when
`high = low`) times volume, divided by the sum of the volumes, and equals 0
when the total volume is not positive; a single bar with
`high = low = close = 100` and `volume = 1000` yields 0. (The Lean function is
total, matching the spec's claim that `cmf` never fails.) -/
theorem calculate_cmf_spec :
    (∀ bars : List Bar,
      calculate_cmf bars =
        if 0 < (bars.map Bar.v).sum then
          (bars.map (fun b =>
            (if b.h = b.l then 0 else ((b.c - b.l) - (b.h - b.c)) / (b.h - b.l)) * b.v)).sum
            / (bars.map Bar.v).sum
        else 0)
    ∧ calculate_cmf [⟨100, 100, 100, 1000⟩] = 0 := by
  constructor
  · intro bars
    rw [calculate_cmf_sum]
    rfl
  · rw [calculate_cmf_sum]
    norm_num [specMultiplier]

/-- The metrics dictionary built by `get_ticker_data` (field names follow the
Python dict keys). -/
structure TickerMetrics where
  rsi : ℚ
  volume_increase : ℚ
  cmf : ℚ
  current_volume : ℚ
  avg_volume : ℚ
deriving DecidableEq

/-- The data `get_ticker_data` inspects from the two HTTP responses of one
ticker: the status codes, the RSI `results.values` list (collapsed to the list
of numeric values; an absent/falsy `results` and an empty `values` both lead
to the same `(ticker, None)` return, via the guard resp. the caught
IndexError), and the aggregate `results` bar list (absent and empty are both
falsy in the guard). -/
structure TickerResponses where
  rsiStatus : Nat
  volStatus : Nat
  rsiValues : List ℚ
  volResults : List Bar
deriving DecidableEq

/-- `get_ticker_data` from src/entry.py, as a function of the response data of
its ticker. Returns the pair `(ticker, data-or-None)` exactly as each Python
return site does: None on a non-200 status, on missing/empty results, and
otherwise the metrics dict with `avg_volume = sum(volumes[1:21]) / 20`,
`volume_increase = current/avg if avg > 0 else 0`, and
`cmf = calculate_cmf(results[:20])`. -/
def get_ticker_data (ticker : String) (r : TickerResponses) :
    String × Option TickerMetrics :=
  if r.rsiStatus ≠ 200 ∨ r.volStatus ≠ 200 then (ticker, none)
  else
    match r.rsiValues, r.volResults with
    | rsiValue :: _, bar0 :: restBars =>
        let current_volume := bar0.v
        let avg_volume := ((restBars.take 20).map Bar.v).sum / 20
        let volume_increase := if avg_volume > 0 then current_volume / avg_volume else 0
        let cmf := calculate_cmf ((bar0 :: restBars).take 20)
        (ticker, some ⟨rsiValue, volume_increase, cmf, current_volume, avg_volume⟩)
    | _, _ => (ticker, none)

/-- Bars 1 through 20 of a most-recent-first series (Python `bars[1:21]`). -/
def tail20 (bars : List Bar) : List Bar :=
  (bars.drop 1).take 20

/-- Arithmetic mean of a list of rationals, as the specification words it. -/
def listMean (xs : List ℚ) : ℚ :=
  xs.sum / (xs.length : ℚ)

/-- C2: for a successful pair of responses whose bar series has at least 21
bars with non-negative volumes, the computed `volume_increase` equals bar 0's
volume divided by the arithmetic mean of the volumes of bars 1 through 20 — a
window that then holds exactly 20 bars — and equals 0 when that mean is 0. -/
theorem volume_increase_spec (ticker : String) (r : TickerResponses)
    (hrs : r.rsiStatus = 200) (hvs : r.volStatus = 200)
    (hrsi : r.rsiValues ≠ [])
    (hlen : 21 ≤ r.volResults.length)
    (hnn : ∀ b ∈ r.volResults, 0 ≤ b.v) :
    ∃ d, (get_ticker_data ticker r).2 = some d ∧
      (tail20 r.volResults).length = 20 ∧
      d.volume_increase =
        if listMean ((tail20 r.volResults).map Bar.v) = 0 then 0
        else r.volResults.headI.v / listMean ((tail20 r.volResults).map Bar.v) := by
  rcases hv : r.volResults with _ | ⟨bar0, rest⟩
  · rw [hv] at hlen; simp at hlen
  rcases hr : r.rsiValues with _ | ⟨x, xs⟩
  · exact absurd hr hrsi
  rw [hv] at hlen hnn
  have hrest : 20 ≤ rest.length := by
    simp only [List.length_cons] at hlen; omega
  rw [get_ticker_data, if_neg (by simp [hrs, hvs]), hr, hv]
  refine ⟨_, rfl, ?_, ?_⟩
  · simp [tail20, List.length_take]; omega
  · have hlen20 : (tail20 (bar0 :: rest)).length = 20 := by
      simp [tail20, List.length_take]; omega
    have hmean : listMean ((tail20 (bar0 :: rest)).map Bar.v) =
        ((rest.take 20).map Bar.v).sum / 20 := by
      rw [listMean, List.length_map, hlen20]
      simp [tail20]
    have hS : 0 ≤ ((rest.take 20).map Bar.v).sum := by
      apply List.sum_nonneg
      intro q hq
      rcases List.mem_map.mp hq with ⟨b, hb, rfl⟩
      exact hnn b (List.mem_cons_of_mem _ (List.take_subset _ _ hb))
    simp only [hmean, List.headI]
    by_cases h0 : ((rest.take 20).map Bar.v).sum / 20 = 0
    · rw [if_pos h0, if_neg (by rw [h0]; exact lt_irrefl 0)]
    · have hpos : 0 < ((rest.take 20).map Bar.v).sum / 20 := by
        rcases lt_or_eq_of_le (by positivity : (0 : ℚ) ≤ ((rest.take 20).map Bar.v).sum / 20)
          with h | h
        · exact h
        · exact absurd h.symm h0
      rw [if_neg h0, if_pos hpos]

/-- Response data for the C2 witness: bar 0 has volume 400 and the next 20
bars each have volume 200, so the 20-day average is 200 and the ratio is 2. -/
def rC2 : TickerResponses :=
  ⟨200, 200, [25], ⟨10, 9, 10, 400⟩ :: List.replicate 20 ⟨10, 9, 10, 200⟩⟩

/-- Witness for C2 at concrete data: the hypotheses hold and the computed
ratio is exactly 2. -/
theorem volume_increase_spec_witness :
    (∃ d, (get_ticker_data "AAA" rC2).2 = some d ∧
      (tail20 rC2.volResults).length = 20 ∧
      d.volume_increase =
        if listMean ((tail20 rC2.volResults).map Bar.v) = 0 then 0
        else rC2.volResults.headI.v / listMean ((tail20 rC2.volResults).map Bar.v)) ∧
    (get_ticker_data "AAA" rC2).2.map TickerMetrics.volume_increase = some 2 := by
  constructor
  · refine volume_increase_spec "AAA" rC2 rfl rfl (by simp [rC2]) (by simp [rC2]) ?_
    intro b hb
    simp only [rC2, List.mem_cons, List.mem_replicate] at hb
    rcases hb with h | ⟨-, h⟩ <;> rw [h] <;> norm_num
  · rw [rC2, get_ticker_data]
    norm_num [List.take_replicate, List.map_replicate, List.sum_replicate]

/-- Response data with only a single daily bar, both statuses 200 and both
results non-empty. -/
def rC4 : TickerResponses :=
  ⟨200, 200, [50], [⟨10, 9, 10, 500⟩]⟩

/-- Counterexample to C4: with successful non-empty responses but a single bar
(fewer than 21), `get_ticker_data` does not return None — src/entry.py never
checks the bar count, `sum(volumes[1:21]) / 20` just sums whatever is there. -/
theorem short_series_not_none :
    rC4.volResults.length = 1 ∧ (get_ticker_data "AAA" rC4).2.isSome = true := by
  constructor
  · rfl
  · rw [rC4, get_ticker_data]
    norm_num

/-- C4 amended: whenever both statuses are 200 and both `results` are
non-empty, `get_ticker_data` returns metrics even when fewer than 21 bars are
present: the ticker is not excluded, `avg_volume` is the sum of
`volumes[1:21]` divided by the constant 20 (however few bars that slice
holds), and `current_volume` is bar 0's volume. -/
theorem short_series_spec (ticker : String) (r : TickerResponses)
    (hrs : r.rsiStatus = 200) (hvs : r.volStatus = 200)
    (hrsi : r.rsiValues ≠ []) (hvol : r.volResults ≠ [])
    (_hshort : r.volResults.length < 21) :
    ∃ d, (get_ticker_data ticker r).2 = some d ∧
      d.avg_volume = ((tail20 r.volResults).map Bar.v).sum / 20 ∧
      d.current_volume = r.volResults.headI.v := by
  rcases hv : r.volResults with _ | ⟨bar0, rest⟩
  · exact absurd hv hvol
  rcases hr : r.rsiValues with _ | ⟨x, xs⟩
  · exact absurd hr hrsi
  rw [get_ticker_data, if_neg (by simp [hrs, hvs]), hr, hv]
  exact ⟨_, rfl, by simp [tail20], by simp [List.headI]⟩

/-- Witness for the amended C4 at the single-bar data. -/
theorem short_series_spec_witness :
    ∃ d, (get_ticker_data "AAA" rC4).2 = some d ∧
      d.avg_volume = ((tail20 rC4.volResults).map Bar.v).sum / 20 ∧
      d.current_volume = rC4.volResults.headI.v :=
  short_series_spec "AAA" rC4 rfl rfl (by simp [rC4]) (by simp [rC4])
    (by norm_num [rC4])

/-- A bar is well-formed when its volume is non-negative and its close lies
between its low and its high. -/
def wellFormedBar (b : Bar) : Prop :=
  0 ≤ b.v ∧ b.l ≤ b.c ∧ b.c ≤ b.h

instance (b : Bar) : Decidable (wellFormedBar b) := by
  unfold wellFormedBar; infer_instance

theorem specMultiplier_abs_le (b : Bar) (hb : wellFormedBar b) :
    |specMultiplier b| ≤ 1 := by
  obtain ⟨-, hlc, hch⟩ := hb
  rw [specMultiplier]
  by_cases hhl : b.h = b.l
  · simp [hhl]
  · rw [if_neg hhl]
    have hpos : 0 < b.h - b.l := by
      have : b.l ≤ b.h := hlc.trans hch
      rcases lt_or_eq_of_le this with h | h
      · linarith
      · exact absurd h.symm hhl
    rw [abs_div, abs_of_pos hpos, div_le_one hpos, abs_le]
    constructor <;> linarith

theorem mfv_sum_abs_le (bars : List Bar)
    (hb : ∀ b ∈ bars, wellFormedBar b) :
    |(bars.map (fun b => specMultiplier b * b.v)).sum| ≤ (bars.map Bar.v).sum := by
  induction bars with
  | nil => simp
  | cons bar rest ih =>
      simp only [List.map_cons, List.sum_cons]
      have h1 := hb bar (List.mem_cons_self _ _)
      have h2 := ih (fun b hbmem => hb b (List.mem_cons_of_mem _ hbmem))
      calc |specMultiplier bar * bar.v + (rest.map (fun b => specMultiplier b * b.v)).sum|
          ≤ |specMultiplier bar * bar.v| + |(rest.map (fun b => specMultiplier b * b.v)).sum| :=
            abs_add _ _
        _ ≤ bar.v + (rest.map Bar.v).sum := by
            apply add_le_add _ h2
            rw [abs_mul, abs_of_nonneg h1.1]
            calc |specMultiplier bar| * bar.v ≤ 1 * bar.v :=
                  mul_le_mul_of_nonneg_right (specMultiplier_abs_le bar h1) h1.1
              _ = bar.v := one_mul _

/-- On well-formed bars the Chaikin Money Flow always lies in `[-1, 1]`. -/
theorem calculate_cmf_bounds (bars : List Bar)
    (hb : ∀ b ∈ bars, wellFormedBar b) :
    -1 ≤ calculate_cmf bars ∧ calculate_cmf bars ≤ 1 := by
  rw [calculate_cmf_sum]
  by_cases hpos : 0 < (bars.map Bar.v).sum
  · rw [if_pos hpos]
    have habs := mfv_sum_abs_le bars hb
    have habs2 : |(bars.map (fun b => specMultiplier b * b.v)).sum / (bars.map Bar.v).sum| ≤ 1 := by
      rw [abs_div, abs_of_pos hpos, div_le_one hpos]
      exact habs
    exact abs_le.mp habs2
  · rw [if_neg hpos]
    norm_num

/-- Same 21 bars as the C2 witness (all well formed), but the RSI endpoint
reports the value 150. -/
def rC9 : TickerResponses :=
  ⟨200, 200, [150], ⟨10, 9, 10, 400⟩ :: List.replicate 20 ⟨10, 9, 10, 200⟩⟩

/-- Counterexample to C9: on a successful pair of responses whose bars are all
well formed (non-negative volume, low ≤ close ≤ high), the produced record has
rsi = 150, outside [0, 100] — src/entry.py stores the provider's RSI value
without validation. -/
theorem rsi_range_counterexample :
    (rC9.volResults.all fun b => decide (wellFormedBar b)) = true ∧
    (get_ticker_data "AAA" rC9).2.map TickerMetrics.rsi = some 150 ∧
    ¬ ((150 : ℚ) ≤ 100) := by
  refine ⟨?_, ?_, by norm_num⟩
  · simp only [rC9, List.all_cons, List.all_eq_true, List.mem_replicate]
    norm_num [wellFormedBar]
  · rw [rC9, get_ticker_data]
    norm_num

/-- C9 amended: every record produced by `get_ticker_data` from responses
whose bars are well formed has `volume_increase ≥ 0` and `cmf ∈ [-1, 1]`; its
`rsi` field, however, is just the first value reported by the RSI endpoint,
passed through unvalidated (so it lies in [0, 100] only if the provider's
value does). -/
theorem metrics_ranges (ticker : String) (r : TickerResponses) (d : TickerMetrics)
    (hb : ∀ b ∈ r.volResults, wellFormedBar b)
    (hd : (get_ticker_data ticker r).2 = some d) :
    0 ≤ d.volume_increase ∧ -1 ≤ d.cmf ∧ d.cmf ≤ 1 ∧ d.rsi = r.rsiValues.headI := by
  rw [get_ticker_data] at hd
  by_cases hst : r.rsiStatus ≠ 200 ∨ r.volStatus ≠ 200
  · rw [if_pos hst] at hd
    simp at hd
  · rw [if_neg hst] at hd
    rcases hr : r.rsiValues with _ | ⟨x, xs⟩ <;>
      rcases hv : r.volResults with _ | ⟨bar0, rest⟩ <;>
      rw [hr, hv] at hd <;> simp only [] at hd
    · exact absurd hd (by simp)
    · exact absurd hd (by simp)
    · exact absurd hd (by simp)
    · rw [Option.some.injEq] at hd
      subst hd
      rw [hv] at hb
      refine ⟨?_, ?_, ?_⟩
      · by_cases havg : ((rest.take 20).map Bar.v).sum / 20 > 0
        · rw [if_pos havg]
          exact div_nonneg (hb bar0 (List.mem_cons_self _ _)).1 (le_of_lt havg)
        · rw [if_neg havg]
      · exact (calculate_cmf_bounds _ (fun b hbm =>
          hb b (List.mem_of_mem_take hbm))).1
      · exact ⟨(calculate_cmf_bounds _ (fun b hbm =>
          hb b (List.mem_of_mem_take hbm))).2, rfl⟩

/-- Witness for the amended C9 at the single-bar data rC4: the produced record
is explicitly `⟨50, 0, 1, 500, 0⟩` and the bounds hold. -/
theorem metrics_ranges_witness :
    0 ≤ ((⟨50, 0, 1, 500, 0⟩ : TickerMetrics)).volume_increase ∧
    -1 ≤ ((⟨50, 0, 1, 500, 0⟩ : TickerMetrics)).cmf ∧
    ((⟨50, 0, 1, 500, 0⟩ : TickerMetrics)).cmf ≤ 1 ∧
    ((⟨50, 0, 1, 500, 0⟩ : TickerMetrics)).rsi = rC4.rsiValues.headI :=
  metrics_ranges "AAA" rC4 ⟨50, 0, 1, 500, 0⟩
    (by
      intro b hbm
      simp only [rC4, List.mem_singleton] at hbm
      rw [hbm]
      norm_num [wellFormedBar])
    (by
      rw [rC4, get_ticker_data]
      norm_num [calculate_cmf, cmfLoop])

/-- Trading constants from src/entry.py. -/
def MIN_RSI : ℚ := 15

def MAX_RSI : ℚ := 40

def VOLUME_INCREASE_THRESHOLD : ℚ := 2

/-- The filter condition of the dict comprehension in `process_tickers`
(applied only once `data` is present): `MIN_RSI <= rsi <= MAX_RSI and
volume_increase >= VOLUME_INCREASE_THRESHOLD and cmf > 0`. -/
def passes_filter (d : TickerMetrics) : Bool :=
  decide (MIN_RSI ≤ d.rsi) && decide (d.rsi ≤ MAX_RSI) &&
    decide (VOLUME_INCREASE_THRESHOLD ≤ d.volume_increase) && decide (0 < d.cmf)

theorem passes_filter_iff (d : TickerMetrics) :
    passes_filter d = true ↔
      (15 : ℚ) ≤ d.rsi ∧ d.rsi ≤ 40 ∧ (2 : ℚ) ≤ d.volume_increase ∧ 0 < d.cmf := by
  simp [passes_filter, MIN_RSI, MAX_RSI, VOLUME_INCREASE_THRESHOLD, and_assoc]

/-- Insertion into a Python dict rendered as an association list: an existing
key keeps its position and receives the new value, a new key is appended. -/
def dictInsert (m : List (String × TickerMetrics)) (k : String) (d : TickerMetrics) :
    List (String × TickerMetrics) :=
  if m.any (fun p => decide (p.1 = k)) then
    m.map (fun p => if p.1 = k then (k, d) else p)
  else m ++ [(k, d)]

/-- One step of building the dict comprehension of `process_tickers`: a
`(ticker, data)` pair is inserted when `data` is present and passes the
filter. -/
def filterStep (m : List (String × TickerMetrics)) (r : String × Option TickerMetrics) :
    List (String × TickerMetrics) :=
  match r.2 with
  | some d => if passes_filter d then dictInsert m r.1 d else m
  | none => m

/-- `process_tickers` from src/entry.py, with the per-ticker network modelled
by an environment `env` assigning each ticker its response data: gathers
`get_ticker_data` over the input list (order preserved, as asyncio.gather
does), then builds the filtered dict. -/
def process_tickers (env : String → TickerResponses) (tickers : List String) :
    List (String × TickerMetrics) :=
  (tickers.map (fun t => get_ticker_data t (env t))).foldl filterStep []

theorem get_ticker_data_fst (ticker : String) (r : TickerResponses) :
    (get_ticker_data ticker r).1 = ticker := by
  rw [get_ticker_data]
  split
  · rfl
  · split <;> rfl

/-- A ticker key occurs in a dict iff it occurred before the insertion or is
the inserted key. -/
theorem dictInsert_keyMem (m : List (String × TickerMetrics)) (k t : String)
    (d : TickerMetrics) :
    (∃ e, (t, e) ∈ dictInsert m k d) ↔ (∃ e, (t, e) ∈ m) ∨ t = k := by
  rw [dictInsert]
  by_cases hany : (m.any fun p => decide (p.1 = k)) = true
  · rw [if_pos hany]
    constructor
    · rintro ⟨e, he⟩
      rcases List.mem_map.mp he with ⟨p, hp, hfp⟩
      by_cases hpk : p.1 = k
      · rw [if_pos hpk] at hfp
        right
        have := congrArg Prod.fst hfp
        exact this.symm
      · rw [if_neg hpk] at hfp
        left
        exact ⟨e, hfp ▸ hp⟩
    · rintro (⟨e, he⟩ | rfl)
      · by_cases hpk : t = k
        · subst hpk
          exact ⟨d, List.mem_map.mpr ⟨(t, e), he, by simp⟩⟩
        · exact ⟨e, List.mem_map.mpr ⟨(t, e), he, by simp [hpk]⟩⟩
      · rcases List.any_eq_true.mp hany with ⟨p, hp, hpk⟩
        rw [decide_eq_true_eq] at hpk
        exact ⟨d, List.mem_map.mpr ⟨p, hp, by simp [hpk]⟩⟩
  · rw [if_neg hany]
    constructor
    · rintro ⟨e, he⟩
      rcases List.mem_append.mp he with h | h
      · exact Or.inl ⟨e, h⟩
      · right
        have h := List.mem_singleton.mp h
        exact congrArg Prod.fst h
    · rintro (⟨e, he⟩ | rfl)
      · exact ⟨e, List.mem_append.mpr (Or.inl he)⟩
      · exact ⟨d, List.mem_append.mpr (Or.inr (List.mem_singleton.mpr rfl))⟩

theorem foldl_filterStep_keyMem (rs : List (String × Option TickerMetrics)) :
    ∀ (acc : List (String × TickerMetrics)) (t : String),
      (∃ e, (t, e) ∈ rs.foldl filterStep acc) ↔
        (∃ e, (t, e) ∈ acc) ∨
          ∃ r ∈ rs, r.1 = t ∧ ∃ d, r.2 = some d ∧ passes_filter d = true := by
  induction rs with
  | nil => intro acc t; simp
  | cons r rest ih =>
      obtain ⟨t', o⟩ := r
      intro acc t
      rw [List.foldl_cons, ih]
      have hstep : (∃ e, (t, e) ∈ filterStep acc (t', o)) ↔
          (∃ e, (t, e) ∈ acc) ∨
            (t' = t ∧ ∃ d, o = some d ∧ passes_filter d = true) := by
        rcases o with - | d
        · simp [filterStep]
        · show (∃ e, (t, e) ∈ if passes_filter d = true then dictInsert acc t' d else acc) ↔ _
          by_cases hp : passes_filter d = true
          · rw [if_pos hp, dictInsert_keyMem]
            constructor
            · rintro (h | rfl)
              · exact Or.inl h
              · exact Or.inr ⟨rfl, d, rfl, hp⟩
            · rintro (h | ⟨rfl, d', hd', -⟩)
              · exact Or.inl h
              · exact Or.inr rfl
          · rw [if_neg hp]
            constructor
            · exact Or.inl
            · rintro (h | ⟨-, d', hd', hpd⟩)
              · exact h
              · rw [Option.some.injEq] at hd'
                subst hd'
                exact absurd hpd hp
      rw [hstep]
      constructor
      · rintro (⟨h | h⟩ | h)
        · exact Or.inl h
        · exact Or.inr ⟨(t', o), List.mem_cons_self _ _, h.1, h.2⟩
        · rcases h with ⟨r', hr', hh⟩
          exact Or.inr ⟨r', List.mem_cons_of_mem _ hr', hh⟩
      · rintro (h | ⟨r', hr', hh⟩)
        · exact Or.inl (Or.inl h)
        · rcases List.mem_cons.mp hr' with rfl | hmem
          · exact Or.inl (Or.inr ⟨hh.1, hh.2⟩)
          · exact Or.inr ⟨r', hmem, hh⟩

/-- C1: a fetched ticker is kept in the mapping returned by `process_tickers`
iff its metrics are present (not None) and satisfy `15 ≤ rsi ≤ 40`,
`volumeIncrease ≥ 2` and `cmf > 0` — the cmf bound strict, so `cmf = 0` is
excluded, and `rsi = 50` falls outside `[15, 40]`. -/
theorem process_tickers_filter_iff (env : String → TickerResponses)
    (tickers : List String) (t : String) (ht : t ∈ tickers) :
    (∃ e, (t, e) ∈ process_tickers env tickers) ↔
      ∃ d, (get_ticker_data t (env t)).2 = some d ∧
        (15 : ℚ) ≤ d.rsi ∧ d.rsi ≤ 40 ∧
        (2 : ℚ) ≤ d.volume_increase ∧ 0 < d.cmf := by
  rw [process_tickers, foldl_filterStep_keyMem]
  simp only [List.not_mem_nil, false_and, exists_false, false_or, List.mem_map]
  constructor
  · rintro ⟨r, ⟨t', ht', rfl⟩, hfst, d, hd, hp⟩
    have : t' = t := by rw [get_ticker_data_fst] at hfst; exact hfst
    subst this
    exact ⟨d, hd, (passes_filter_iff d).mp hp⟩
  · rintro ⟨d, hd, hineq⟩
    exact ⟨get_ticker_data t (env t), ⟨t, ht, rfl⟩, get_ticker_data_fst t (env t),
      d, hd, (passes_filter_iff d).mpr hineq⟩

/-- Environment for the `process_tickers` witnesses: rsi 25, a 400-volume bar
followed by a 100-volume bar (so the ratio is 400 / (100/20) = 80) and cmf 1;
the ticker passes every threshold. -/
def envW : String → TickerResponses :=
  fun _ => ⟨200, 200, [25], [⟨10, 9, 10, 400⟩, ⟨10, 9, 10, 100⟩]⟩

/-- Witness for C1 at a concrete environment and a one-ticker universe. -/
theorem process_tickers_filter_iff_witness :
    ("AAA" ∈ ["AAA"]) ∧
    ((∃ e, ("AAA", e) ∈ process_tickers envW ["AAA"]) ↔
      ∃ d, (get_ticker_data "AAA" (envW "AAA")).2 = some d ∧
        (15 : ℚ) ≤ d.rsi ∧ d.rsi ≤ 40 ∧
        (2 : ℚ) ≤ d.volume_increase ∧ 0 < d.cmf) :=
  ⟨List.mem_singleton.mpr rfl,
    process_tickers_filter_iff envW ["AAA"] "AAA" (List.mem_singleton.mpr rfl)⟩

theorem dictInsert_mem (m : List (String × TickerMetrics)) (k : String)
    (d : TickerMetrics) (p : String × TickerMetrics) (hp : p ∈ dictInsert m k d) :
    p ∈ m ∨ p = (k, d) := by
  rw [dictInsert] at hp
  by_cases hany : (m.any fun q => decide (q.1 = k)) = true
  · rw [if_pos hany] at hp
    rcases List.mem_map.mp hp with ⟨q, hq, hfq⟩
    by_cases hqk : q.1 = k
    · rw [if_pos hqk] at hfq
      exact Or.inr hfq.symm
    · rw [if_neg hqk] at hfq
      exact Or.inl (hfq ▸ hq)
  · rw [if_neg hany] at hp
    rcases List.mem_append.mp hp with h | h
    · exact Or.inl h
    · exact Or.inr (List.mem_singleton.mp h)

theorem foldl_filterStep_mem (rs : List (String × Option TickerMetrics)) :
    ∀ (acc : List (String × TickerMetrics)) (p : String × TickerMetrics),
      p ∈ rs.foldl filterStep acc →
        p ∈ acc ∨ ∃ r ∈ rs, r.1 = p.1 ∧ r.2 = some p.2 := by
  induction rs with
  | nil => exact fun acc p hp => Or.inl hp
  | cons r rest ih =>
      obtain ⟨t', o⟩ := r
      intro acc p hp
      rw [List.foldl_cons] at hp
      rcases ih _ p hp with h | ⟨r', hr', hh⟩
      · rcases o with - | d
        · exact Or.inl h
        · have h' : p ∈ (if passes_filter d = true then dictInsert acc t' d else acc) := h
          by_cases hpass : passes_filter d = true
          · rw [if_pos hpass] at h'
            rcases dictInsert_mem _ _ _ _ h' with h2 | h2
            · exact Or.inl h2
            · subst h2
              exact Or.inr ⟨(t', some d), List.mem_cons_self _ _, rfl, rfl⟩
          · rw [if_neg hpass] at h'
            exact Or.inl h'
      · exact Or.inr ⟨r', List.mem_cons_of_mem _ hr', hh⟩

theorem dictInsert_keys_nodup (m : List (String × TickerMetrics)) (k : String)
    (d : TickerMetrics) (hm : (m.map Prod.fst).Nodup) :
    ((dictInsert m k d).map Prod.fst).Nodup := by
  rw [dictInsert]
  by_cases hany : (m.any fun q => decide (q.1 = k)) = true
  · rw [if_pos hany]
    have hkeys : (m.map (fun p => if p.1 = k then (k, d) else p)).map Prod.fst =
        m.map Prod.fst := by
      rw [List.map_map]
      apply List.map_congr_left
      intro p _
      by_cases hpk : p.1 = k
      · simp [hpk]
      · simp [hpk]
    rw [hkeys]
    exact hm
  · rw [if_neg hany, List.map_append]
    refine List.Nodup.append hm (List.nodup_singleton k) ?_
    intro a ha ha'
    rcases List.mem_map.mp ha with ⟨p, hp, rfl⟩
    have hak := List.mem_singleton.mp ha'
    apply hany
    exact List.any_eq_true.mpr ⟨p, hp, decide_eq_true hak⟩

theorem foldl_filterStep_nodup (rs : List (String × Option TickerMetrics)) :
    ∀ acc : List (String × TickerMetrics), (acc.map Prod.fst).Nodup →
      ((rs.foldl filterStep acc).map Prod.fst).Nodup := by
  induction rs with
  | nil => exact fun acc h => h
  | cons r rest ih =>
      obtain ⟨t', o⟩ := r
      intro acc h
      rw [List.foldl_cons]
      apply ih
      rcases o with - | d
      · exact h
      · show (((if passes_filter d = true then dictInsert acc t' d else acc)).map
          Prod.fst).Nodup
        by_cases hpass : passes_filter d = true
        · rw [if_pos hpass]
          exact dictInsert_keys_nodup _ _ _ h
        · rw [if_neg hpass]
          exact h

/-- C10: the keys of the mapping returned by `process_tickers` form a subset
of the input tickers without repetition, each key is bound to the metrics its
own fetch produced, and `get_ticker_data` always returns its argument ticker
as the first component of its result pair. -/
theorem process_tickers_invariants (env : String → TickerResponses)
    (tickers : List String) :
    (∀ p ∈ process_tickers env tickers,
        p.1 ∈ tickers ∧ get_ticker_data p.1 (env p.1) = (p.1, some p.2)) ∧
    ((process_tickers env tickers).map Prod.fst).Nodup ∧
    ∀ (ticker : String) (r : TickerResponses), (get_ticker_data ticker r).1 = ticker := by
  refine ⟨?_, foldl_filterStep_nodup _ _ (by simp), get_ticker_data_fst⟩
  intro p hp
  rcases foldl_filterStep_mem _ _ p hp with h | ⟨r', hr', h1, h2⟩
  · simp at h
  · rcases List.mem_map.mp hr' with ⟨t', ht', rfl⟩
    have hfst : t' = p.1 := by
      rw [get_ticker_data_fst] at h1
      exact h1
    subst hfst
    refine ⟨ht', ?_⟩
    have hpair := get_ticker_data_fst p.1 (env p.1)
    exact Prod.ext hpair h2

/-- The concrete mapping built from `envW` over the one-ticker universe. -/
theorem process_tickers_envW :
    process_tickers envW ["AAA"] = [("AAA", ⟨25, 80, 1, 400, 5⟩)] := by
  have hgtd : get_ticker_data "AAA" (envW "AAA") = ("AAA", some ⟨25, 80, 1, 400, 5⟩) := by
    rw [envW, get_ticker_data]
    norm_num [calculate_cmf, cmfLoop]
    exact List.cons_ne_nil _ _
  have hpass : passes_filter ⟨25, 80, 1, 400, 5⟩ = true := by
    rw [passes_filter_iff]
    norm_num
  rw [process_tickers, List.map_singleton, hgtd, List.foldl_cons, List.foldl_nil]
  show (if passes_filter ⟨25, 80, 1, 400, 5⟩ = true
    then dictInsert [] "AAA" ⟨25, 80, 1, 400, 5⟩ else []) = _
  rw [if_pos hpass, dictInsert]
  simp

/-- Witness for C10: the single produced entry of the concrete scan indeed
has its key in the universe and carries its own fetch's metrics. -/
theorem process_tickers_invariants_witness :
    ("AAA", (⟨25, 80, 1, 400, 5⟩ : TickerMetrics)).1 ∈ ["AAA"] ∧
    get_ticker_data ("AAA", (⟨25, 80, 1, 400, 5⟩ : TickerMetrics)).1
        (envW ("AAA", (⟨25, 80, 1, 400, 5⟩ : TickerMetrics)).1) =
      (("AAA", (⟨25, 80, 1, 400, 5⟩ : TickerMetrics)).1,
        some ("AAA", (⟨25, 80, 1, 400, 5⟩ : TickerMetrics)).2) :=
  (process_tickers_invariants envW ["AAA"]).1 ("AAA", ⟨25, 80, 1, 400, 5⟩)
    (by rw [process_tickers_envW]; exact List.mem_singleton.mpr rfl)

/-- One page outcome in the ticker-universe pagination: either the request
raised (transport failure, malformed body), or a response carrying an HTTP
status, the ticker symbols of its `results`, and an optional `next_url`
cursor. -/
inductive PageResult where
  | transportError : PageResult
  | page (status : Nat) (tickers : List String) (nextUrl : Option String) : PageResult
deriving DecidableEq

/-- The `while next_url` loop of `get_all_tickers` over a script of page
outcomes: an exception or a non-200 status breaks with the accumulated list;
a falsy (empty) `results` breaks; otherwise the page's tickers are appended
and a follow-up request happens exactly when a cursor is present. -/
def getAllTickersLoop : List PageResult → List String → List String
  | [], acc => acc
  | .transportError :: _, acc => acc
  | .page status tks next :: rest, acc =>
      if status ≠ 200 then acc
      else if tks = [] then acc
      else
        match next with
        | none => acc ++ tks
        | some _ => getAllTickersLoop rest (acc ++ tks)

/-- `get_all_tickers` from src/entry.py: runs the pagination loop from an
empty accumulator; the ticker list is its only return value. -/
def get_all_tickers (pages : List PageResult) : List String :=
  getAllTickersLoop pages []

/-- A fully successful one-page run. -/
def pagesOk : List PageResult :=
  [.page 200 ["A", "B"] none]

/-- A run whose second page fails with HTTP 500 after a first page identical
to `pagesOk`'s. -/
def pagesFail : List PageResult :=
  [.page 200 ["A", "B"] (some "u"), .page 500 ["C"] none]

/-- Counterexample to C5: on a failing page the call indeed stops and returns
the accumulated tickers, but no Error value accompanies them — the failing
run returns exactly the same plain list as a fully successful run, so the
caller cannot see the failure (it is only logged). -/
theorem error_not_signalled_counterexample :
    get_all_tickers pagesOk = ["A", "B"] ∧
    get_all_tickers pagesFail = ["A", "B"] ∧
    get_all_tickers pagesOk = get_all_tickers pagesFail := by
  refine ⟨?_, ?_, ?_⟩ <;> rfl

/-- C5 amended: a transport failure or a non-success status stops pagination
and the call returns the tickers accumulated so far, unchanged; the failure
is only logged, no error value is returned to the caller. -/
theorem pagination_failure_returns_accumulated (status : Nat) (tks : List String)
    (next : Option String) (rest : List PageResult) (acc : List String)
    (hfail : status ≠ 200) :
    getAllTickersLoop (.transportError :: rest) acc = acc ∧
    getAllTickersLoop (.page status tks next :: rest) acc = acc := by
  constructor
  · rfl
  · show (if status ≠ 200 then acc
      else if tks = [] then acc
      else
        match next with
        | none => acc ++ tks
        | some _ => getAllTickersLoop rest (acc ++ tks)) = acc
    rw [if_pos hfail]

/-- Witness for the amended C5 with a 500 status and a non-empty
accumulator. -/
theorem pagination_failure_returns_accumulated_witness :
    getAllTickersLoop (.transportError :: []) ["A"] = ["A"] ∧
    getAllTickersLoop (.page 500 ["C"] none :: []) ["A"] = ["A"] :=
  pagination_failure_returns_accumulated 500 ["C"] none [] ["A"] (by decide)

/-- A two-page script whose first page carries a continuation cursor but zero
tickers; the claim predicts the second page's ticker is still fetched. -/
def pagesEmptyPage : List PageResult :=
  [.page 200 [] (some "u"), .page 200 ["X"] none]

/-- Counterexample to C6: the empty first page terminates the iteration even
though it carries a cursor (`if not data.get('results'): break` runs before
the cursor is consulted), so the second page's ticker is never collected. -/
theorem empty_page_terminates_counterexample :
    get_all_tickers pagesEmptyPage = [] ∧ get_all_tickers pagesEmptyPage ≠ ["X"] := by
  constructor
  · rfl
  · intro h
    exact absurd h (by decide)

/-- A page after which the loop continues: success status, non-empty tickers
and a continuation cursor. -/
def continuingPage : PageResult → Prop
  | .transportError => False
  | .page status tks next => status = 200 ∧ tks ≠ [] ∧ next ≠ none

/-- The ticker symbols a page carries. -/
def pageTickers : PageResult → List String
  | .transportError => []
  | .page _ tks _ => tks

theorem getAllTickersLoop_append_good (pre : List PageResult)
    (hpre : ∀ p ∈ pre, continuingPage p) :
    ∀ (rest : List PageResult) (acc : List String),
      getAllTickersLoop (pre ++ rest) acc =
        getAllTickersLoop rest (acc ++ (pre.map pageTickers).flatten) := by
  induction pre with
  | nil => intro rest acc; simp
  | cons p pre ih =>
      intro rest acc
      rcases p with - | ⟨status, tks, next⟩
      · exact absurd (hpre _ (List.mem_cons_self _ _)) id
      · obtain ⟨h200, hne, hnext⟩ := hpre _ (List.mem_cons_self _ _)
        subst h200
        rcases next with - | u
        · exact absurd rfl hnext
        · show (if (200 : Nat) ≠ 200 then acc
            else if tks = [] then acc
            else getAllTickersLoop (pre ++ rest) (acc ++ tks)) = _
          rw [if_neg (by norm_num), if_neg hne,
            ih (fun q hq => hpre q (List.mem_cons_of_mem _ hq)) rest (acc ++ tks)]
          simp [pageTickers, List.append_assoc]

/-- C6 amended: pagination keeps issuing follow-up requests while each page is
a success carrying both a non-empty `results` and a cursor, and it stops when
no cursor is returned (later pages are never consulted); but a page with zero
ticker symbols also terminates the iteration, even when it carries a cursor —
empty pages are not tolerated. -/
theorem pagination_stop_spec (pre : List PageResult)
    (hpre : ∀ p ∈ pre, continuingPage p) :
    (∀ (tks : List String) (rest : List PageResult), tks ≠ [] →
      get_all_tickers (pre ++ .page 200 tks none :: rest) =
        (pre.map pageTickers).flatten ++ tks) ∧
    (∀ (u : String) (rest : List PageResult),
      get_all_tickers (pre ++ .page 200 [] (some u) :: rest) =
        (pre.map pageTickers).flatten) := by
  constructor
  · intro tks rest hne
    rw [get_all_tickers, getAllTickersLoop_append_good pre hpre]
    show (if (200 : Nat) ≠ 200 then [] ++ (pre.map pageTickers).flatten
      else if tks = [] then [] ++ (pre.map pageTickers).flatten
      else ([] ++ (pre.map pageTickers).flatten) ++ tks) = _
    rw [if_neg (by norm_num), if_neg hne]
    simp
  · intro u rest
    rw [get_all_tickers, getAllTickersLoop_append_good pre hpre]
    show (if (200 : Nat) ≠ 200 then [] ++ (pre.map pageTickers).flatten
      else if ([] : List String) = [] then [] ++ (pre.map pageTickers).flatten
      else getAllTickersLoop rest (([] ++ (pre.map pageTickers).flatten) ++ [])) = _
    rw [if_neg (by norm_num), if_pos rfl]
    simp

/-- Witness for the amended C6: after one continuing page, a cursor-less page
ends the run with both pages' tickers, and an empty page ends it with only
the first page's tickers. -/
theorem pagination_stop_spec_witness :
    (get_all_tickers ([.page 200 ["A"] (some "u")] ++ .page 200 ["B"] none :: []) =
      (([.page 200 ["A"] (some "u")] : List PageResult).map pageTickers).flatten ++ ["B"]) ∧
    (get_all_tickers ([.page 200 ["A"] (some "u")] ++ .page 200 [] (some "v") :: []) =
      (([.page 200 ["A"] (some "u")] : List PageResult).map pageTickers).flatten) := by
  have hpre : ∀ p ∈ ([.page 200 ["A"] (some "u")] : List PageResult), continuingPage p := by
    intro p hp
    rw [List.mem_singleton.mp hp]
    exact ⟨rfl, List.cons_ne_nil _ _, Option.some_ne_none _⟩
  exact ⟨(pagination_stop_spec _ hpre).1 ["B"] [] (List.cons_ne_nil _ _),
    (pagination_stop_spec _ hpre).2 "v" []⟩

/-- A file-system operation performed while saving. -/
inductive FileOp where
  | openTruncate (path : String)
  | write (path : String) (data : String)

/-- Effect of one operation on the file system (path → visible content):
opening in mode `w` truncates the file to empty, a write appends its data. -/
def runOp (fs : String → String) : FileOp → String → String
  | .openTruncate p => fun q => if q = p then "" else fs q
  | .write p data => fun q => if q = p then fs q ++ data else fs q

/-- The operations `save_results` performs: it opens `entry.json` itself in
truncating mode `w` and then `json.dump`s the serialized mapping into it — no
temporary file and no rename appear anywhere in the function. -/
def save_results_ops (serialized : String) : List FileOp :=
  [.openTruncate "entry.json", .write "entry.json" serialized]

/-- The sequence of file-system states a concurrent reader can observe while
a list of operations runs (one state after each operation). -/
def statesDuring (fs : String → String) : List FileOp → List (String → String)
  | [] => []
  | op :: rest => runOp fs op :: statesDuring (runOp fs op) rest

/-- Counterexample to C7: starting from a stored snapshot `OLD` and saving
`NEW`, the contents of `entry.json` visible during the save are first `""`
and then `NEW`; the empty intermediate state is neither the complete old
mapping nor the complete new one, so a concurrent reader can observe a
partially written (truncated) result file. -/
theorem save_not_atomic_counterexample :
    ((statesDuring (fun _ => "OLD") (save_results_ops "NEW")).map
      (fun s => s "entry.json")) = ["", "NEW"] ∧
    ("" : String) ≠ "OLD" ∧ ("" : String) ≠ "NEW" := by
  refine ⟨?_, by decide, by decide⟩
  simp [statesDuring, save_results_ops, runOp]

/-- C7 amended: `save_results` writes directly into `entry.json`
(truncate-then-write, no temporary file, no rename), so the replacement is
not atomic: whenever the old snapshot and the new serialized content are both
non-empty, the save passes through a visible state of `entry.json` that is
neither the old content nor the new. -/
theorem save_not_atomic (fs : String → String) (serialized : String)
    (hold : fs "entry.json" ≠ "") (hnew : serialized ≠ "") :
    ∃ s ∈ statesDuring fs (save_results_ops serialized),
      s "entry.json" ≠ fs "entry.json" ∧ s "entry.json" ≠ serialized := by
  refine ⟨runOp fs (.openTruncate "entry.json"), ?_, ?_, ?_⟩
  · rw [save_results_ops, statesDuring]
    exact List.mem_cons_self _ _
  · show (if "entry.json" = "entry.json" then "" else fs "entry.json") ≠ fs "entry.json"
    rw [if_pos rfl]
    exact fun h => hold h.symm
  · show (if "entry.json" = "entry.json" then "" else fs "entry.json") ≠ serialized
    rw [if_pos rfl]
    exact fun h => hnew h.symm

/-- Witness for the amended C7 at the concrete OLD/NEW snapshots. -/
theorem save_not_atomic_witness :
    ∃ s ∈ statesDuring (fun _ => "OLD") (save_results_ops "NEW"),
      s "entry.json" ≠ (fun _ => "OLD") "entry.json" ∧ s "entry.json" ≠ "NEW" :=
  save_not_atomic (fun _ => "OLD") "NEW" (by decide) (by decide)

/-- A local wall-clock time of day, as Python's `datetime.time`: hour,
minute, second, microsecond. -/
structure TimeOfDay where
  hour : Nat
  minute : Nat
  second : Nat
  microsecond : Nat
deriving DecidableEq

/-- Python's ordering on `datetime.time` values: lexicographic on
(hour, minute, second, microsecond). -/
def timeLe (a b : TimeOfDay) : Bool :=
  if a.hour ≠ b.hour then decide (a.hour < b.hour)
  else if a.minute ≠ b.minute then decide (a.minute < b.minute)
  else if a.second ≠ b.second then decide (a.second < b.second)
  else decide (a.microsecond ≤ b.microsecond)

/-- `MARKET_OPEN = datetime_time(4, 0, 0)` from src/entry.py. -/
def MARKET_OPEN : TimeOfDay := ⟨4, 0, 0, 0⟩

/-- `MARKET_CLOSE = datetime_time(20, 0, 0)` from src/entry.py. -/
def MARKET_CLOSE : TimeOfDay := ⟨20, 0, 0, 0⟩

/-- `is_market_open` from src/entry.py:
`MARKET_OPEN <= now.time() <= MARKET_CLOSE`. -/
def is_market_open (now : TimeOfDay) : Bool :=
  timeLe MARKET_OPEN now && timeLe now MARKET_CLOSE

/-- A time of day whose fields are in range. -/
def validTime (t : TimeOfDay) : Prop :=
  t.hour < 24 ∧ t.minute < 60 ∧ t.second < 60 ∧ t.microsecond < 1000000

instance (t : TimeOfDay) : Decidable (validTime t) := by
  unfold validTime
  infer_instance

/-- Microseconds since local midnight. -/
def toMicros (t : TimeOfDay) : Nat :=
  ((t.hour * 60 + t.minute) * 60 + t.second) * 1000000 + t.microsecond

theorem timeLe_iff (a b : TimeOfDay) (ha : validTime a) (hb : validTime b) :
    timeLe a b = true ↔ toMicros a ≤ toMicros b := by
  obtain ⟨ha1, ha2, ha3, ha4⟩ := ha
  obtain ⟨hb1, hb2, hb3, hb4⟩ := hb
  rw [timeLe, toMicros, toMicros]
  split_ifs with h1 h2 h3 <;> simp only [decide_eq_true_eq] <;> omega

/-- C8: `is_market_open` is true iff the wall-clock instant's local
time-of-day lies in the closed interval [04:00, 20:00]; in particular it is
true at exactly 04:00 and exactly 20:00 and false at 03:59 and at 20:01. -/
theorem is_market_open_spec :
    (∀ t : TimeOfDay, validTime t →
      (is_market_open t = true ↔
        4 * 3600 * 1000000 ≤ toMicros t ∧ toMicros t ≤ 20 * 3600 * 1000000)) ∧
    is_market_open ⟨4, 0, 0, 0⟩ = true ∧
    is_market_open ⟨20, 0, 0, 0⟩ = true ∧
    is_market_open ⟨3, 59, 0, 0⟩ = false ∧
    is_market_open ⟨20, 1, 0, 0⟩ = false := by
  refine ⟨?_, by decide, by decide, by decide, by decide⟩
  intro t ht
  rw [is_market_open, Bool.and_eq_true,
    timeLe_iff MARKET_OPEN t (by decide) ht,
    timeLe_iff t MARKET_CLOSE ht (by decide)]
  norm_num [MARKET_OPEN, MARKET_CLOSE, toMicros]

/-- Witness for C8 at noon: the interval characterization evaluated at
12:00:00. -/
theorem is_market_open_spec_witness :
    is_market_open ⟨12, 0, 0, 0⟩ = true ↔
      4 * 3600 * 1000000 ≤ toMicros ⟨12, 0, 0, 0⟩ ∧
        toMicros ⟨12, 0, 0, 0⟩ ≤ 20 * 3600 * 1000000 :=
  is_market_open_spec.1 ⟨12, 0, 0, 0⟩ (by decide)

end Finnpal
